import Mathlib

/-!
Shallow embedding of the hospital-placement hill-climbing program
(`hospitals.py`).  Grid cells are integer pairs, the `Space` class is a
structure, Python sets are `Finset`s, and a Python `min` over an empty
sequence (a `ValueError`) is modelled by `⊥` in `WithBot ℕ`.  The body of
`hill_climb`'s `while` loop is the function `Space.step`; the loop itself is
`climbLoop`, with the iteration cap as fuel and the fall-off-the-end exit
(Python's implicit `return None`) as `ClimbResult.fellOff`.  The call to
`random.choice` is modelled by an arbitrary `pick` function whose result is
checked for membership in the offered list.
-/

namespace Hospitals

/-- Grid coordinates, a Python `(row, col)` tuple of ints. -/
abbrev Cell : Type := ℤ × ℤ

/-- State of the Python `Space` class. -/
structure Space where
  height : ℕ
  width : ℕ
  num_hospitals : ℕ
  houses : Finset Cell
  hospitals : Finset Cell
deriving DecidableEq

/-- The `Space.__init__` constructor: empty house and hospital sets. -/
def Space.init (height width num_hospitals : ℕ) : Space :=
  ⟨height, width, num_hospitals, ∅, ∅⟩

/-- `Space.add_house`: `self.houses.add((row, col))`, with no validation. -/
def Space.add_house (S : Space) (row col : ℤ) : Space :=
  { S with houses := insert (row, col) S.houses }

/-- The bounds test `0 <= r < self.height and 0 <= c < self.width`. -/
def Space.in_bounds (S : Space) (c : Cell) : Prop :=
  0 ≤ c.1 ∧ c.1 < (S.height : ℤ) ∧ 0 ≤ c.2 ∧ c.2 < (S.width : ℤ)

instance (S : Space) (c : Cell) : Decidable (S.in_bounds c) :=
  inferInstanceAs (Decidable (0 ≤ c.1 ∧ c.1 < (S.height : ℤ) ∧ 0 ≤ c.2 ∧ c.2 < (S.width : ℤ)))

/-- The full grid, the comprehension over `range(height) × range(width)`. -/
def Space.gridCells (S : Space) : Finset Cell :=
  (Finset.range S.height ×ˢ Finset.range S.width).image
    (fun rc => ((rc.1 : ℤ), (rc.2 : ℤ)))

/-- `Space.available_spaces`: all cells minus houses minus hospitals. -/
def Space.available_spaces (S : Space) : Finset Cell :=
  (S.gridCells \ S.houses) \ S.hospitals

/-- Manhattan distance `abs(r1 - r2) + abs(c1 - c2)`. -/
def manhattan (a b : Cell) : ℕ :=
  (a.1 - b.1).natAbs + (a.2 - b.2).natAbs

/-- Python's `min` over a set of naturals: `⊥` models the `ValueError`
raised on an empty sequence. -/
def pymin (s : Finset ℕ) : WithBot ℕ :=
  if h : s.Nonempty then ((s.min' h : ℕ) : WithBot ℕ) else ⊥

/-- `Space.get_cost(hospitals)`: sum over houses of the minimal Manhattan
distance to a hospital; `⊥` propagates the `ValueError` of an inner empty
`min` through the sum. -/
def Space.get_cost (S : Space) (hospitals : Finset Cell) : WithBot ℕ :=
  S.houses.sum (fun h => pymin (hospitals.image (fun p => manhattan h p)))

/-- `Space.get_neighbors(row, col)`: the four orthogonal candidates filtered
to in-bounds cells not occupied by a house or a hospital. -/
def Space.get_neighbors (S : Space) (row col : ℤ) : List Cell :=
  [(row - 1, col), (row + 1, col), (row, col - 1), (row, col + 1)].filter
    (fun rc => decide (S.in_bounds rc ∧ rc ∉ S.houses ∧ rc ∉ S.hospitals))

/-- All trial placements built in the inner double loop of `hill_climb`:
for each hospital and each of its neighbors, remove the hospital and add
the replacement. -/
def Space.trials (S : Space) : Finset (Finset Cell) :=
  S.hospitals.biUnion (fun h =>
    ((S.get_neighbors h.1 h.2).map (fun r => insert r (S.hospitals.erase h))).toFinset)

/-- Costs of the trial placements.  Every trial placement is an `insert`,
hence nonempty, so its cost is never `⊥`; `unbot' 0` only strips the
coercion (see `get_cost_trial_ne_bot`). -/
def Space.trial_costs (S : Space) : Finset ℕ :=
  S.trials.image (fun t => (S.get_cost t).unbot' 0)

/-- The loop variable `best_neighbor_cost`: `⊥` models Python's `None`,
kept when no (hospital, neighbor) pair was iterated over. -/
def Space.best_neighbor_cost (S : Space) : WithBot ℕ :=
  pymin S.trial_costs

/-- Outcome of one pass of the `while` body of `hill_climb`. -/
inductive StepResult where
  | converged (p : Finset Cell)
  | moved (choices : Finset (Finset Cell))
  | typeError
  | valueError
deriving DecidableEq

/-- One pass of the `while` body.  `get_cost(self.hospitals)` is evaluated
as the right operand of `>=`, so its `ValueError` fires before the
`None >= int` `TypeError`; `moved` carries the `best_neighbors` list (as a
set: the trial placements attaining the minimal trial cost) offered to
`random.choice`. -/
def Space.step (S : Space) : StepResult :=
  if S.get_cost S.hospitals = ⊥ then .valueError
  else if S.best_neighbor_cost = ⊥ then .typeError
  else if S.get_cost S.hospitals ≤ S.best_neighbor_cost then .converged S.hospitals
  else .moved (S.trials.filter (fun t => S.get_cost t = S.best_neighbor_cost))

/-- Reassignment `self.hospitals = ...`. -/
def Space.setHospitals (S : Space) (p : Finset Cell) : Space :=
  { S with hospitals := p }

/-- Outcome of running the `while` loop of `hill_climb`: a `return`, the
fall off the end of the function when the cap is reached (Python's implicit
`return None`), an uncaught exception, or a `pick` that stepped outside the
offered choices (impossible for `random.choice`). -/
inductive ClimbResult where
  | returned (p : Finset Cell)
  | fellOff
  | typeError
  | valueError
  | badPick
deriving DecidableEq

/-- The `while` loop of `hill_climb` with the iteration cap as fuel:
`climbLoop pick S n` runs at most `n` passes, handing each `best_neighbors`
set to `pick` in place of `random.choice`. -/
def climbLoop (pick : Finset (Finset Cell) → Finset Cell) : Space → ℕ → ClimbResult
  | _, 0 => .fellOff
  | S, n + 1 =>
    match S.step with
    | .converged p => .returned p
    | .moved c => if pick c ∈ c then climbLoop pick (S.setHospitals (pick c)) n else .badPick
    | .typeError => .typeError
    | .valueError => .valueError

/-- The sampling domain the specification prescribes for the start of a
hill-climb run: every in-bounds cell not occupied by a house, independent
of any leftover hospital placement. -/
def Space.spec_init_domain (S : Space) : Finset Cell :=
  S.gridCells \ S.houses

/-! Helper lemmas about `pymin`, `WithBot` sums, and the trial set. -/

lemma pymin_eq_bot_iff {s : Finset ℕ} : pymin s = ⊥ ↔ s = ∅ := by
  unfold pymin
  split_ifs with h
  · exact iff_of_false (by exact_mod_cast WithBot.coe_ne_bot) h.ne_empty
  · simp [Finset.not_nonempty_iff_eq_empty.mp h]

lemma pymin_ne_bot {s : Finset ℕ} (h : s.Nonempty) : pymin s ≠ ⊥ := by
  simp [pymin_eq_bot_iff, h.ne_empty]

lemma pymin_coe {s : Finset ℕ} (h : s.Nonempty) :
    pymin s = ((s.min' h : ℕ) : WithBot ℕ) :=
  dif_pos h

lemma pymin_eq_zero_iff {s : Finset ℕ} (h : s.Nonempty) :
    pymin s = (0 : WithBot ℕ) ↔ 0 ∈ s := by
  rw [pymin_coe h]
  constructor
  · intro he
    have h0 : s.min' h = 0 := by exact_mod_cast he
    exact h0 ▸ s.min'_mem h
  · intro h0
    have h1 : s.min' h = 0 := Nat.le_zero.mp (s.min'_le 0 h0)
    exact_mod_cast congrArg (fun n : ℕ => (n : WithBot ℕ)) h1

lemma sum_coe_unbot {α : Type} [DecidableEq α] (s : Finset α) (f : α → WithBot ℕ)
    (hf : ∀ a ∈ s, f a ≠ ⊥) :
    s.sum f = ((s.sum (fun a => (f a).unbot' 0) : ℕ) : WithBot ℕ) := by
  induction s using Finset.induction_on with
  | empty => simp
  | @insert a s ha ih =>
    rw [Finset.sum_insert ha, Finset.sum_insert ha,
      ih (fun b hb => hf b (Finset.mem_insert_of_mem hb))]
    obtain ⟨m, hm⟩ := WithBot.ne_bot_iff_exists.mp (hf a (Finset.mem_insert_self a s))
    rw [← hm]
    exact_mod_cast rfl

lemma sum_eq_bot_of_mem {α : Type} [DecidableEq α] {s : Finset α} {f : α → WithBot ℕ}
    {a : α} (ha : a ∈ s) (hfa : f a = ⊥) : s.sum f = ⊥ := by
  rw [← Finset.add_sum_erase s f ha, hfa, WithBot.bot_add]

lemma get_cost_ne_bot {S : Space} {hos : Finset Cell} (h : hos.Nonempty) :
    S.get_cost hos ≠ ⊥ := by
  unfold Space.get_cost
  rw [sum_coe_unbot _ _ (fun a _ => pymin_ne_bot (h.image _))]
  exact WithBot.coe_ne_bot

lemma manhattan_eq_zero {a b : Cell} : manhattan a b = 0 ↔ a = b := by
  unfold manhattan
  rw [Nat.add_eq_zero, Int.natAbs_eq_zero, Int.natAbs_eq_zero, sub_eq_zero, sub_eq_zero]
  exact Prod.ext_iff.symm

lemma mem_trials {S : Space} {t : Finset Cell} :
    t ∈ S.trials ↔ ∃ h ∈ S.hospitals, ∃ r ∈ S.get_neighbors h.1 h.2,
      t = insert r (S.hospitals.erase h) := by
  unfold Space.trials
  simp only [Finset.mem_biUnion, List.mem_toFinset, List.mem_map]
  constructor
  · rintro ⟨h, hh, r, hr, rfl⟩
    exact ⟨h, hh, r, hr, rfl⟩
  · rintro ⟨h, hh, r, hr, rfl⟩
    exact ⟨h, hh, r, hr, rfl⟩

lemma hospitals_nonempty_of_trials {S : Space} (h : S.trials.Nonempty) :
    S.hospitals.Nonempty := by
  obtain ⟨t, ht⟩ := h
  obtain ⟨a, ha, _⟩ := mem_trials.mp ht
  exact ⟨a, ha⟩

lemma trial_nonempty {S : Space} {t : Finset Cell} (ht : t ∈ S.trials) : t.Nonempty := by
  obtain ⟨h, _, r, _, rfl⟩ := mem_trials.mp ht
  exact ⟨r, Finset.mem_insert_self r _⟩

lemma get_cost_trial_ne_bot {S : Space} {t : Finset Cell} (ht : t ∈ S.trials) :
    S.get_cost t ≠ ⊥ :=
  get_cost_ne_bot (trial_nonempty ht)

lemma best_neighbor_cost_eq_bot_iff {S : Space} :
    S.best_neighbor_cost = ⊥ ↔ S.trials = ∅ := by
  unfold Space.best_neighbor_cost Space.trial_costs
  rw [pymin_eq_bot_iff, Finset.image_eq_empty]

lemma unbot'_eq_zero_iff {x : WithBot ℕ} (hx : x ≠ ⊥) : x.unbot' 0 = 0 ↔ x = 0 := by
  obtain ⟨m, hm⟩ := WithBot.ne_bot_iff_exists.mp hx
  subst hm
  constructor
  · intro h0
    have hm0 : m = 0 := h0
    subst hm0
    rfl
  · intro h0
    rw [show (0 : WithBot ℕ) = WithBot.some 0 from rfl] at h0
    have hm0 : m = 0 := WithBot.coe_inj.mp h0
    subst hm0
    rfl

/-! Claim theorems. -/

/-- C8: for every nonempty placement, the cost is a (non-negative) natural
number, it is zero exactly when every house coincides with a hospital cell
of the placement, and it is zero whenever there are no houses. -/
theorem get_cost_nonneg_zero_iff (S : Space) (P : Finset Cell) (hP : P.Nonempty) :
    (∃ n : ℕ, S.get_cost P = (n : WithBot ℕ)) ∧
    (S.get_cost P = 0 ↔ ∀ h ∈ S.houses, h ∈ P) ∧
    (S.houses = ∅ → S.get_cost P = 0) := by
  have hterm : ∀ h : Cell, pymin (P.image (fun p => manhattan h p)) ≠ ⊥ :=
    fun h => pymin_ne_bot (hP.image _)
  have hzero : ∀ h : Cell,
      (pymin (P.image (fun p => manhattan h p)) = (0 : WithBot ℕ) ↔ h ∈ P) := by
    intro h
    rw [pymin_eq_zero_iff (hP.image _)]
    constructor
    · intro h0
      obtain ⟨p, hp, hp0⟩ := Finset.mem_image.mp h0
      exact (manhattan_eq_zero.mp hp0) ▸ hp
    · intro hmem
      exact Finset.mem_image.mpr ⟨h, hmem, manhattan_eq_zero.mpr rfl⟩
  have hsum := sum_coe_unbot S.houses
    (fun h => pymin (P.image (fun p => manhattan h p))) (fun a _ => hterm a)
  refine ⟨⟨_, hsum⟩, ?_, ?_⟩
  · unfold Space.get_cost
    rw [hsum]
    constructor
    · intro h0 h hh
      have hN : (S.houses.sum
          (fun a => (pymin (P.image (fun p => manhattan a p))).unbot' 0)) = 0 := by
        exact_mod_cast h0
      have := Finset.sum_eq_zero_iff.mp hN h hh
      exact (hzero h).mp ((unbot'_eq_zero_iff (hterm h)).mp this)
    · intro hall
      have hN : (S.houses.sum
          (fun a => (pymin (P.image (fun p => manhattan a p))).unbot' 0)) = 0 :=
        Finset.sum_eq_zero
          (fun h hh => (unbot'_eq_zero_iff (hterm h)).mpr ((hzero h).mpr (hall h hh)))
      exact_mod_cast congrArg (fun n : ℕ => (n : WithBot ℕ)) hN
  · intro hempty
    unfold Space.get_cost
    rw [hempty, Finset.sum_empty]

theorem get_cost_nonneg_zero_iff_witness :
    ({((0 : ℤ), (1 : ℤ))} : Finset Cell).Nonempty ∧
    ((∃ n : ℕ, (Space.mk 1 2 1 {((0 : ℤ), (0 : ℤ))} ∅).get_cost {((0 : ℤ), (1 : ℤ))} =
        (n : WithBot ℕ)) ∧
      ((Space.mk 1 2 1 {((0 : ℤ), (0 : ℤ))} ∅).get_cost {((0 : ℤ), (1 : ℤ))} = 0 ↔
        ∀ h ∈ (Space.mk 1 2 1 {((0 : ℤ), (0 : ℤ))} ∅).houses,
          h ∈ ({((0 : ℤ), (1 : ℤ))} : Finset Cell)) ∧
      ((Space.mk 1 2 1 {((0 : ℤ), (0 : ℤ))} ∅).houses = ∅ →
        (Space.mk 1 2 1 {((0 : ℤ), (0 : ℤ))} ∅).get_cost {((0 : ℤ), (1 : ℤ))} = 0)) :=
  ⟨by decide, get_cost_nonneg_zero_iff _ _ (by decide)⟩

/-- C7 counterexample: in the zero-house state the cost of the empty
placement is silently 0, not an error, refuting the claim that an empty
placement always fails fast. -/
theorem get_cost_empty_zero_houses_cex :
    (Space.mk 2 2 1 ∅ ∅).get_cost ∅ = 0 ∧ (Space.mk 2 2 1 ∅ ∅).get_cost ∅ ≠ ⊥ := by
  decide

/-- C7 amended: when at least one house exists, evaluating the cost of the
empty placement is the error value `⊥` (Python's `ValueError` from `min`
over an empty sequence). -/
theorem get_cost_empty_placement_bot (S : Space) (h : S.houses.Nonempty) :
    S.get_cost ∅ = ⊥ := by
  obtain ⟨a, ha⟩ := h
  exact sum_eq_bot_of_mem ha (by simp [pymin_eq_bot_iff])

theorem get_cost_empty_placement_bot_witness :
    (Space.mk 1 1 1 {((0 : ℤ), (0 : ℤ))} ∅).houses.Nonempty ∧
    (Space.mk 1 1 1 {((0 : ℤ), (0 : ℤ))} ∅).get_cost ∅ = ⊥ :=
  ⟨by decide, get_cost_empty_placement_bot _ (by decide)⟩

/-- C9 counterexample: `add_house` accepts the out-of-bounds cell (5, 5) on
a 2 by 2 grid, so the house set does come to contain an out-of-bounds cell. -/
theorem add_house_out_of_bounds_cex :
    ((5 : ℤ), (5 : ℤ)) ∈ ((Space.init 2 2 1).add_house 5 5).houses ∧
    ¬ ((Space.init 2 2 1).add_house 5 5).in_bounds (5, 5) := by
  decide

/-- C9 amended: `add_house` performs no validation at all; it
unconditionally inserts the given cell into the house set. -/
theorem add_house_always_inserts (S : Space) (row col : ℤ) :
    (row, col) ∈ (S.add_house row col).houses :=
  Finset.mem_insert_self _ _

/-- C6 counterexample: with a leftover hospital at (0, 1), the sampling
domain used at the start of a hill-climb run differs from the spec's
domain of all non-house cells, so restart runs do share leftover state. -/
theorem restart_domain_excludes_leftover_cex :
    (Space.mk 1 2 1 ∅ {((0 : ℤ), (1 : ℤ))}).available_spaces ≠
      (Space.mk 1 2 1 ∅ {((0 : ℤ), (1 : ℤ))}).spec_init_domain := by
  decide

/-- C6 amended: the sampling domain coincides with the spec's domain (all
in-bounds non-house cells) exactly on a state whose hospital set is empty,
which holds for the first run only, not for later restart runs. -/
theorem init_domain_eq_spec_of_no_leftover (S : Space) (h : S.hospitals = ∅) :
    S.available_spaces = S.spec_init_domain := by
  unfold Space.available_spaces Space.spec_init_domain
  rw [h, Finset.sdiff_empty]

theorem init_domain_eq_spec_of_no_leftover_witness :
    (Space.init 1 2 1).hospitals = ∅ ∧
    (Space.init 1 2 1).available_spaces = (Space.init 1 2 1).spec_init_domain :=
  ⟨by decide, init_domain_eq_spec_of_no_leftover _ (by decide)⟩

/-- C5: every cell returned by `get_neighbors` is one of the four
orthogonally adjacent cells, is in bounds, is not a house, is not a
hospital, and at most four cells are returned. -/
theorem get_neighbors_sound (S : Space) (row col : ℤ) (c : Cell)
    (hc : c ∈ S.get_neighbors row col) :
    (c = (row - 1, col) ∨ c = (row + 1, col) ∨ c = (row, col - 1) ∨ c = (row, col + 1)) ∧
    S.in_bounds c ∧ c ∉ S.houses ∧ c ∉ S.hospitals ∧
    (S.get_neighbors row col).length ≤ 4 := by
  unfold Space.get_neighbors at hc ⊢
  have hmem := List.mem_filter.mp hc
  have hp := of_decide_eq_true hmem.2
  have hl := hmem.1
  simp only [List.mem_cons, List.not_mem_nil, or_false] at hl
  exact ⟨hl, hp.1, hp.2.1, hp.2.2, List.length_filter_le _ _⟩

theorem get_neighbors_sound_witness :
    ((1 : ℤ), (0 : ℤ)) ∈ (Space.init 2 2 1).get_neighbors 0 0 ∧
    (((((1 : ℤ), (0 : ℤ)) : Cell) = ((0 : ℤ) - 1, (0 : ℤ)) ∨
        ((((1 : ℤ), (0 : ℤ))) : Cell) = ((0 : ℤ) + 1, (0 : ℤ)) ∨
        ((((1 : ℤ), (0 : ℤ))) : Cell) = ((0 : ℤ), (0 : ℤ) - 1) ∨
        ((((1 : ℤ), (0 : ℤ))) : Cell) = ((0 : ℤ), (0 : ℤ) + 1)) ∧
      (Space.init 2 2 1).in_bounds (1, 0) ∧
      ((1 : ℤ), (0 : ℤ)) ∉ (Space.init 2 2 1).houses ∧
      ((1 : ℤ), (0 : ℤ)) ∉ (Space.init 2 2 1).hospitals ∧
      ((Space.init 2 2 1).get_neighbors 0 0).length ≤ 4) :=
  ⟨by decide, get_neighbors_sound _ 0 0 _ (by decide)⟩

/-- C10: when the current placement is nonempty and every hospital has an
empty neighbor list, no trial placement is generated, and the convergence
comparison `None >= int` makes the step raise `TypeError`. -/
theorem step_typeError_of_no_neighbors (S : Space) (hne : S.hospitals.Nonempty)
    (hnb : ∀ h ∈ S.hospitals, S.get_neighbors h.1 h.2 = []) :
    S.step = .typeError := by
  have htr : S.trials = ∅ := by
    rw [Finset.eq_empty_iff_forall_not_mem]
    intro t ht
    obtain ⟨h, hh, r, hr, _⟩ := mem_trials.mp ht
    rw [hnb h hh] at hr
    exact (List.not_mem_nil r) hr
  have hb : S.best_neighbor_cost = ⊥ := best_neighbor_cost_eq_bot_iff.mpr htr
  have hc : S.get_cost S.hospitals ≠ ⊥ := get_cost_ne_bot hne
  unfold Space.step
  rw [if_neg hc, if_pos hb]

theorem step_typeError_of_no_neighbors_witness :
    (Space.mk 1 1 1 ∅ {((0 : ℤ), (0 : ℤ))}).hospitals.Nonempty ∧
    (∀ h ∈ (Space.mk 1 1 1 ∅ {((0 : ℤ), (0 : ℤ))}).hospitals,
      (Space.mk 1 1 1 ∅ {((0 : ℤ), (0 : ℤ))}).get_neighbors h.1 h.2 = []) ∧
    (Space.mk 1 1 1 ∅ {((0 : ℤ), (0 : ℤ))}).step = .typeError :=
  ⟨by decide, by decide, step_typeError_of_no_neighbors _ (by decide) (by decide)⟩

/-- C2: every step the optimizer actually takes strictly decreases the
cost: any placement offered to `random.choice` in a `moved` outcome has
cost strictly below the cost of the current placement. -/
theorem step_taken_strictly_decreases_cost (S : Space) (c : Finset (Finset Cell))
    (p : Finset Cell) (hs : S.step = .moved c) (hp : p ∈ c) :
    (S.setHospitals p).get_cost (S.setHospitals p).hospitals < S.get_cost S.hospitals := by
  unfold Space.step at hs
  split_ifs at hs with h1 h2 h3
  rw [StepResult.moved.injEq] at hs
  subst hs
  obtain ⟨hpt, hpc⟩ := Finset.mem_filter.mp hp
  have hlt : S.best_neighbor_cost < S.get_cost S.hospitals := not_le.mp h3
  show S.get_cost p < S.get_cost S.hospitals
  rw [hpc]
  exact hlt

theorem step_taken_strictly_decreases_cost_witness :
    (Space.mk 1 3 1 {((0 : ℤ), (0 : ℤ))} {((0 : ℤ), (2 : ℤ))}).step =
      .moved {({((0 : ℤ), (1 : ℤ))} : Finset Cell)} ∧
    ({((0 : ℤ), (1 : ℤ))} : Finset Cell) ∈ ({({((0 : ℤ), (1 : ℤ))} : Finset Cell)} :
      Finset (Finset Cell)) ∧
    ((Space.mk 1 3 1 {((0 : ℤ), (0 : ℤ))} {((0 : ℤ), (2 : ℤ))}).setHospitals
        {((0 : ℤ), (1 : ℤ))}).get_cost
      ((Space.mk 1 3 1 {((0 : ℤ), (0 : ℤ))} {((0 : ℤ), (2 : ℤ))}).setHospitals
        {((0 : ℤ), (1 : ℤ))}).hospitals <
      (Space.mk 1 3 1 {((0 : ℤ), (0 : ℤ))} {((0 : ℤ), (2 : ℤ))}).get_cost
        (Space.mk 1 3 1 {((0 : ℤ), (0 : ℤ))} {((0 : ℤ), (2 : ℤ))}).hospitals :=
  ⟨by decide, by decide,
    step_taken_strictly_decreases_cost
      (Space.mk 1 3 1 {((0 : ℤ), (0 : ℤ))} {((0 : ℤ), (2 : ℤ))})
      {({((0 : ℤ), (1 : ℤ))} : Finset Cell)} {((0 : ℤ), (1 : ℤ))}
      (by decide) (by decide)⟩

/-- C1: when the minimal trial cost exists and is not strictly below the
current cost, the loop body returns the current placement unchanged on
that very pass. -/
theorem hill_climb_converged_returns_current (S : Space)
    (pick : Finset (Finset Cell) → Finset Cell) (fuel : ℕ)
    (hT : S.trials.Nonempty)
    (hge : S.get_cost S.hospitals ≤ S.best_neighbor_cost) :
    climbLoop pick S (fuel + 1) = .returned S.hospitals := by
  have hc : S.get_cost S.hospitals ≠ ⊥ :=
    get_cost_ne_bot (hospitals_nonempty_of_trials hT)
  have hb : S.best_neighbor_cost ≠ ⊥ := by
    rw [ne_eq, best_neighbor_cost_eq_bot_iff]
    exact hT.ne_empty
  have hstep : S.step = .converged S.hospitals := by
    unfold Space.step
    rw [if_neg hc, if_neg hb, if_pos hge]
  simp only [climbLoop, hstep]

theorem hill_climb_converged_returns_current_witness :
    (Space.mk 1 3 1 {((0 : ℤ), (0 : ℤ))} {((0 : ℤ), (1 : ℤ))}).trials.Nonempty ∧
    (Space.mk 1 3 1 {((0 : ℤ), (0 : ℤ))} {((0 : ℤ), (1 : ℤ))}).get_cost
        (Space.mk 1 3 1 {((0 : ℤ), (0 : ℤ))} {((0 : ℤ), (1 : ℤ))}).hospitals ≤
      (Space.mk 1 3 1 {((0 : ℤ), (0 : ℤ))} {((0 : ℤ), (1 : ℤ))}).best_neighbor_cost ∧
    climbLoop (fun _ => ∅) (Space.mk 1 3 1 {((0 : ℤ), (0 : ℤ))} {((0 : ℤ), (1 : ℤ))})
        (4 + 1) =
      .returned (Space.mk 1 3 1 {((0 : ℤ), (0 : ℤ))} {((0 : ℤ), (1 : ℤ))}).hospitals :=
  ⟨by decide, by decide,
    hill_climb_converged_returns_current _ _ 4 (by decide) (by decide)⟩

/-- C3: on a 1 by 3 grid with a house at (0, 2) and initial hospital at
(0, 0), the run capped at one iteration takes an improving move, the loop
condition then fails, and the function falls off its end: Python returns
`None`, not the current placement.  With a cap of two the same run
converges and returns a placement, showing the capped run had not yet
converged. -/
theorem hill_climb_cap_falls_off_returns_none :
    climbLoop (fun _ => {((0 : ℤ), (1 : ℤ))})
        (Space.mk 1 3 1 {((0 : ℤ), (2 : ℤ))} {((0 : ℤ), (0 : ℤ))}) 1 = .fellOff ∧
    climbLoop (fun _ => {((0 : ℤ), (1 : ℤ))})
        (Space.mk 1 3 1 {((0 : ℤ), (2 : ℤ))} {((0 : ℤ), (0 : ℤ))}) 2 =
      .returned {((0 : ℤ), (1 : ℤ))} := by
  decide

end Hospitals
